/-
Verification of the Tilted-Variant-Client board-geometry, move-inference,
event-monitor and UCI-parsing logic against its natural-language
specification.  Definitions are shallow embeddings of the Python/JS source
in `src/`; pixel arithmetic is modelled over ℚ, machine integers over ℤ/ℕ.
-/
import Mathlib

namespace TiltedClient

/-! ## Coordinate mapper (src/src/chesscom_interface.py)

Squares are represented by their algebraic identity `(fileNum, rank)` where
`fileNum` is the 1-based file number (the source serialises it as the
character `'a' + fileNum - 1`) and `rank` is the 1-based rank number.
-/

/-- Embedding of `_coords_for_square_py` (chesscom_interface.py 84-106):
pixel centre of a square.  `sq_size = board_rect.width / num_files`; the
0-based indices are `fi = num_files - file_num`, `ri = rank - 1` when
flipped and `fi = file_num - 1`, `ri = num_ranks - rank` otherwise; the
centre is `rect origin + index * sq_size + sq_size / 2` on each axis. -/
def coordsForSquarePy (left top width : ℚ) (files ranks : ℤ)
    (isFlipped : Bool) (fileNum rank : ℤ) : ℚ × ℚ :=
  let sqSize : ℚ := width / (files : ℚ)
  let fi : ℤ := if isFlipped then files - fileNum else fileNum - 1
  let ri : ℤ := if isFlipped then rank - 1 else ranks - rank
  (left + (fi : ℚ) * sqSize + sqSize / 2,
   top + (ri : ℚ) * sqSize + sqSize / 2)

/-- Embedding of the JS `pixelToSquare` closure inside `get_last_move`
(chesscom_interface.py 3766-3782).  `boardRect.right = left + width`,
`boardRect.bottom = top + height`, `squareW = width / numFiles`,
`squareH = height / numRanks`; indices are clamped from above by
`Math.min` (there is no lower clamp in the source).  The JS returns the
string `file + rank` with `file = 'a' + (numFiles - 1 - fi)` (flipped)
or `'a' + fi`; we return the corresponding pair
(1-based file number, rank). -/
def pixelToSquare (left top width height : ℚ) (files ranks : ℤ)
    (isFlipped : Bool) (cx cy : ℚ) : Option (ℤ × ℤ) :=
  if cx < left - 2 ∨ cx > (left + width) + 2 then none
  else if cy < top - 2 ∨ cy > (top + height) + 2 then none
  else
    let squareW : ℚ := width / (files : ℚ)
    let squareH : ℚ := height / (ranks : ℚ)
    let fi : ℤ := min ⌊(cx - left) / squareW⌋ (files - 1)
    let ri : ℤ := min ⌊(cy - top) / squareH⌋ (ranks - 1)
    if isFlipped then some (files - fi, ri + 1)
    else some (fi + 1, ranks - ri)

/-- A square's pixel centre sits strictly inside its cell: the floor of
`(k*s + s/2) / s` recovers the 0-based index `k`. -/
lemma floor_cell_center (k : ℤ) (s : ℚ) (hs : 0 < s) :
    ⌊((k : ℚ) * s + s / 2) / s⌋ = k := by
  have hne : s ≠ 0 := ne_of_gt hs
  have hval : ((k : ℚ) * s + s / 2) / s = (k : ℚ) + 1 / 2 := by
    field_simp
    ring
  rw [hval, Int.floor_eq_iff]
  constructor
  · linarith
  · linarith

/-- C1.  Coordinate round-trip: for every geometry with
`1 ≤ files, ranks ≤ 14`, every flip orientation, every board rect with
positive width (and the height implied by square cells,
`height = ranks * (width / files)`, since the Python fast path carries no
height), and every on-board square, mapping the square to its pixel
centre with `coordsForSquarePy` and mapping that pixel back with
`pixelToSquare` returns the original square. -/
theorem coordinate_round_trip (files ranks : ℤ) (flipped : Bool)
    (left top width : ℚ) (f r : ℤ)
    (hf1 : 1 ≤ files) (hf14 : files ≤ 14)
    (hr1 : 1 ≤ ranks) (hr14 : ranks ≤ 14)
    (hw : 0 < width)
    (hsf1 : 1 ≤ f) (hsf2 : f ≤ files) (hsr1 : 1 ≤ r) (hsr2 : r ≤ ranks) :
    pixelToSquare left top width ((ranks : ℚ) * (width / (files : ℚ)))
      files ranks flipped
      (coordsForSquarePy left top width files ranks flipped f r).1
      (coordsForSquarePy left top width files ranks flipped f r).2
      = some (f, r) := by
  have hfQ : (0 : ℚ) < (files : ℚ) := by exact_mod_cast lt_of_lt_of_le one_pos hf1
  have hrQ : (0 : ℚ) < (ranks : ℚ) := by exact_mod_cast lt_of_lt_of_le one_pos hr1
  set s : ℚ := width / (files : ℚ) with hs_def
  have hs : 0 < s := div_pos hw hfQ
  have hfiles_s : (files : ℚ) * s = width := by
    rw [hs_def]
    field_simp
  -- the 0-based indices used by the Python encoder
  set fi : ℤ := if flipped then files - f else f - 1 with hfi_def
  set ri : ℤ := if flipped then r - 1 else ranks - r with hri_def
  have hfi0 : 0 ≤ fi := by
    rw [hfi_def]; cases flipped <;> simp <;> omega
  have hfiub : fi ≤ files - 1 := by
    rw [hfi_def]; cases flipped <;> simp <;> omega
  have hri0 : 0 ≤ ri := by
    rw [hri_def]; cases flipped <;> simp <;> omega
  have hriub : ri ≤ ranks - 1 := by
    rw [hri_def]; cases flipped <;> simp <;> omega
  have hx : (coordsForSquarePy left top width files ranks flipped f r).1
      = left + (fi : ℚ) * s + s / 2 := by
    simp only [coordsForSquarePy, hfi_def, hs_def]
  have hy : (coordsForSquarePy left top width files ranks flipped f r).2
      = top + (ri : ℚ) * s + s / 2 := by
    simp only [coordsForSquarePy, hri_def, hs_def]
  rw [hx, hy]
  have hfiQ : (fi : ℚ) ≤ (files : ℚ) - 1 := by exact_mod_cast hfiub
  have hfi0Q : (0 : ℚ) ≤ (fi : ℚ) := by exact_mod_cast hfi0
  have hriQ : (ri : ℚ) ≤ (ranks : ℚ) - 1 := by exact_mod_cast hriub
  have hri0Q : (0 : ℚ) ≤ (ri : ℚ) := by exact_mod_cast hri0
  -- bound checks pass
  have hx_lo : ¬ (left + (fi : ℚ) * s + s / 2 < left - 2) := by
    push_neg; nlinarith
  have hx_hi : ¬ (left + (fi : ℚ) * s + s / 2 > (left + width) + 2) := by
    push_neg
    have : (fi : ℚ) * s + s / 2 ≤ (files : ℚ) * s := by nlinarith
    nlinarith [hfiles_s]
  have hy_lo : ¬ (top + (ri : ℚ) * s + s / 2 < top - 2) := by
    push_neg; nlinarith
  have hheight : (ranks : ℚ) * s / (ranks : ℚ) = s := by
    field_simp
  have hy_hi : ¬ (top + (ri : ℚ) * s + s / 2 > (top + (ranks : ℚ) * s) + 2) := by
    push_neg
    have : (ri : ℚ) * s + s / 2 ≤ (ranks : ℚ) * s := by nlinarith
    nlinarith
  rw [pixelToSquare]
  rw [if_neg (by push_neg; constructor <;> [push_neg at hx_lo; push_neg at hx_hi] <;> linarith)]
  rw [if_neg (by push_neg; constructor <;> [push_neg at hy_lo; push_neg at hy_hi] <;> linarith)]
  have hxfloor : ⌊(left + (fi : ℚ) * s + s / 2 - left) / (width / (files : ℚ))⌋ = fi := by
    have h1 : left + (fi : ℚ) * s + s / 2 - left = (fi : ℚ) * s + s / 2 := by ring
    rw [h1, ← hs_def, floor_cell_center fi s hs]
  have hyfloor : ⌊(top + (ri : ℚ) * s + s / 2 - top) / ((ranks : ℚ) * s / (ranks : ℚ))⌋ = ri := by
    rw [hheight]
    have h1 : top + (ri : ℚ) * s + s / 2 - top = (ri : ℚ) * s + s / 2 := by ring
    rw [h1, floor_cell_center ri s hs]
  simp only [← hs_def] at hxfloor ⊢
  rw [hxfloor, hyfloor, min_eq_left hfiub, min_eq_left hriub]
  rw [hfi_def, hri_def]
  cases flipped <;> simp

/-- Witness for C1 at a concrete input: the spec's own scenario — 8×8
board, not flipped, square e2 (= (5,2)), rect {left 100, top 100,
width 400}; pixel centre (325, 425) maps back to e2. -/
theorem coordinate_round_trip_witness :
    pixelToSquare 100 100 400 ((8 : ℚ) * (400 / (8 : ℚ))) 8 8 false
      (coordsForSquarePy 100 100 400 8 8 false 5 2).1
      (coordsForSquarePy 100 100 400 8 8 false 5 2).2
      = some (5, 2) :=
  coordinate_round_trip 8 8 false 100 100 400 5 2
    (by norm_num) (by norm_num) (by norm_num) (by norm_num) (by norm_num)
    (by norm_num) (by norm_num) (by norm_num) (by norm_num)

/-- C9 counterexample.  The claim says every accepted pixel yields indices
clamped to `[0, files-1] × [0, ranks-1]` and hence a valid on-board
square.  But the source clamps with `Math.min` only: the pixel
`(99, 99)` on an 8×8 board with rect `{left 100, top 100, width 400,
height 400}` is inside the 2-pixel tolerance band, its indices floor to
`-1`, and the result is file number 0, rank 9 — not an on-board square. -/
theorem pixelToSquare_offboard_counterexample :
    pixelToSquare 100 100 400 400 8 8 false 99 99 = some (0, 9)
    ∧ ¬ (1 ≤ (0 : ℤ) ∧ (0 : ℤ) ≤ 8 ∧ 1 ≤ (9 : ℤ) ∧ (9 : ℤ) ≤ 8) := by
  constructor
  · norm_num [pixelToSquare]
  · norm_num

/-- C9 (amended).  `pixelToSquare` returns none for any pixel outside the
board's bounding box beyond the 2-pixel tolerance; indices are clamped
from above only (`Math.min`), so every accepted pixel at or beyond the
rect origin on both axes yields a valid on-board square, while pixels in
the tolerance band before the origin floor to index `-1` (previous
theorem). -/
theorem pixelToSquare_bounds (left top width height : ℚ) (files ranks : ℤ)
    (flipped : Bool) (cx cy : ℚ)
    (hf : 1 ≤ files) (hr : 1 ≤ ranks) (hw : 0 < width) (hh : 0 < height) :
    ((cx < left - 2 ∨ cx > (left + width) + 2 ∨ cy < top - 2 ∨ cy > (top + height) + 2) →
      pixelToSquare left top width height files ranks flipped cx cy = none)
    ∧ (left ≤ cx → cx ≤ (left + width) + 2 → top ≤ cy → cy ≤ (top + height) + 2 →
      ∃ f r, pixelToSquare left top width height files ranks flipped cx cy = some (f, r)
        ∧ 1 ≤ f ∧ f ≤ files ∧ 1 ≤ r ∧ r ≤ ranks) := by
  constructor
  · intro hout
    unfold pixelToSquare
    split_ifs with h1 h2 h3 <;>
      first
      | rfl
      | (exfalso
         push_neg at h1 h2
         rcases hout with h | h | h | h <;>
           linarith [h1.1, h1.2, h2.1, h2.2])
  · intro hx1 hx2 hy1 hy2
    have hfQ : (0 : ℚ) < (files : ℚ) := by exact_mod_cast lt_of_lt_of_le one_pos hf
    have hrQ : (0 : ℚ) < (ranks : ℚ) := by exact_mod_cast lt_of_lt_of_le one_pos hr
    have hsW : 0 < width / (files : ℚ) := div_pos hw hfQ
    have hsH : 0 < height / (ranks : ℚ) := div_pos hh hrQ
    have hfi0 : 0 ≤ ⌊(cx - left) / (width / (files : ℚ))⌋ :=
      Int.floor_nonneg.mpr (div_nonneg (by linarith) (le_of_lt hsW))
    have hri0 : 0 ≤ ⌊(cy - top) / (height / (ranks : ℚ))⌋ :=
      Int.floor_nonneg.mpr (div_nonneg (by linarith) (le_of_lt hsH))
    set fi : ℤ := min ⌊(cx - left) / (width / (files : ℚ))⌋ (files - 1) with hfi_def
    set ri : ℤ := min ⌊(cy - top) / (height / (ranks : ℚ))⌋ (ranks - 1) with hri_def
    have hfi_lb : 0 ≤ fi := le_min hfi0 (by omega)
    have hfi_ub : fi ≤ files - 1 := min_le_right _ _
    have hri_lb : 0 ≤ ri := le_min hri0 (by omega)
    have hri_ub : ri ≤ ranks - 1 := min_le_right _ _
    unfold pixelToSquare
    rw [if_neg (by push_neg; constructor <;> linarith)]
    rw [if_neg (by push_neg; constructor <;> linarith)]
    cases flipped with
    | false =>
        refine ⟨fi + 1, ranks - ri, ?_, by omega, by omega, by omega, by omega⟩
        simp [← hfi_def, ← hri_def]
    | true =>
        refine ⟨files - fi, ri + 1, ?_, by omega, by omega, by omega, by omega⟩
        simp [← hfi_def, ← hri_def]

/-- Witness for C9 (amended) at a concrete input: pixel (125, 125) on the
8×8 board with rect {100, 100, 400×400} is accepted and both conjuncts
hold at these values. -/
theorem pixelToSquare_bounds_witness :
    (((125 : ℚ) < 100 - 2 ∨ (125 : ℚ) > (100 + 400) + 2 ∨ (125 : ℚ) < 100 - 2
        ∨ (125 : ℚ) > (100 + 400) + 2) →
      pixelToSquare 100 100 400 400 8 8 false 125 125 = none)
    ∧ ((100 : ℚ) ≤ 125 → (125 : ℚ) ≤ (100 + 400) + 2 → (100 : ℚ) ≤ 125 →
        (125 : ℚ) ≤ (100 + 400) + 2 →
      ∃ f r, pixelToSquare 100 100 400 400 8 8 false 125 125 = some (f, r)
        ∧ 1 ≤ f ∧ f ≤ 8 ∧ 1 ≤ r ∧ r ≤ 8) :=
  pixelToSquare_bounds 100 100 400 400 8 8 false 125 125
    (by norm_num) (by norm_num) (by norm_num) (by norm_num)

/-! ## Host-frame move-text decoding (`_parse_title_coords`,
chesscom_interface.py 3571-3661)

The regexes are embedded as deterministic character-list parsers.  The
source patterns are LL(1) up to the optional leading piece letter: a
character can never be both a file letter `[a-n]` and a digit, so greedy
matching with the single documented fallback reproduces Python `re`
backtracking exactly.  `\d` is modelled as an ASCII digit (the scraped
texts only carry ASCII). -/

/-- `[a-n]` (lowercase only — the main move regex is case-sensitive). -/
def isFileAN (c : Char) : Bool := 'a' ≤ c && c ≤ 'n'

/-- `[a-n]` under `re.IGNORECASE` (used by the drop regex). -/
def isFileANCI (c : Char) : Bool := isFileAN c.toLower

/-- Numeric value of a decimal digit character. -/
def digitVal (c : Char) : ℕ := c.toNat - '0'.toNat

/-- Greedy `(\d{1,2})`: consume one or two digits, return value and rest. -/
def takeDigits12 : List Char → Option (ℕ × List Char)
  | c1 :: c2 :: rest =>
    if c1.isDigit then
      if c2.isDigit then some (10 * digitVal c1 + digitVal c2, rest)
      else some (digitVal c1, c2 :: rest)
    else none
  | [c1] => if c1.isDigit then some (digitVal c1, []) else none
  | [] => none

/-- The inner `_conv` closure: convert a 14×14-frame file letter and rank
number to a real-board square string.  `fi = ord(lower(f_ch)) - ord('a')
- offset_f` (0-based file), `r = rank - offset_r`; returns none unless
`0 ≤ fi < num_files` and `1 ≤ r ≤ num_ranks`; offsets are floor
divisions `(14 - n) // 2`. -/
def conv (numFiles numRanks : ℤ) (fCh : Char) (rVal : ℕ) : Option String :=
  let offF : ℤ := Int.fdiv (14 - numFiles) 2
  let offR : ℤ := Int.fdiv (14 - numRanks) 2
  let fi : ℤ := (fCh.toLower.toNat : ℤ) - ('a'.toNat : ℤ) - offF
  let r : ℤ := (rVal : ℤ) - offR
  if 0 ≤ fi ∧ fi < numFiles ∧ 1 ≤ r ∧ r ≤ numRanks then
    some (String.mk [Char.ofNat ('a'.toNat + fi.toNat)] ++ Nat.repr r.toNat)
  else none

/-- Drop regex `^@.([A-Z])[x\-]([a-n])(\d{1,2})` with `re.IGNORECASE`
(`.` matches anything but a newline; `[A-Z]` matches any ASCII letter
case-insensitively; `[x\-]` matches `x`, `X`, `-`).  Returns the piece
letter, the raw file letter and the raw rank value. -/
def matchDrop : List Char → Option (Char × Char × ℕ)
  | '@' :: anyC :: p :: sep :: rest =>
    if anyC ≠ '\n' && p.isAlpha && (sep == 'x' || sep == 'X' || sep == '-') then
      match rest with
      | f :: ds =>
        if isFileANCI f then
          match takeDigits12 ds with
          | some (v, _) => some (p, f, v)
          | none => none
        else none
      | [] => none
    else none
  | _ => none

/-- `[A-Za-z]?([a-n])(\d{1,2})` — one square reference of the main move
regex, with the optional leading (piece/captured-piece) letter.  Regex
backtracking prefers consuming the leading letter; the fallback without
it can only succeed when the preferred path fails on its second
character, because a character cannot be both a file letter and a
digit. -/
def matchSquarePart : List Char → Option (Char × ℕ × List Char)
  | c0 :: c1 :: rest =>
    if c0.isAlpha && isFileAN c1 then
      match takeDigits12 rest with
      | some (v, rest') => some (c1, v, rest')
      | none => none
    else if isFileAN c0 then
      match takeDigits12 (c1 :: rest) with
      | some (v, rest') => some (c0, v, rest')
      | none => none
    else none
  | _ => none

/-- Main move regex
`^[A-Za-z]?([a-n])(\d{1,2})[x\-][A-Za-z]?([a-n])(\d{1,2})(?:=([A-Za-z]))?`
(prefix match, trailing characters ignored).  Returns from-file,
from-rank, to-file, to-rank and the optional promotion letter. -/
def matchMain (cs : List Char) : Option (Char × ℕ × Char × ℕ × Option Char) :=
  match matchSquarePart cs with
  | none => none
  | some (fF, fR, rest1) =>
    match rest1 with
    | sep :: rest2 =>
      if sep == 'x' || sep == '-' then
        match matchSquarePart rest2 with
        | none => none
        | some (tF, tR, rest3) =>
          let promo : Option Char :=
            match rest3 with
            | '=' :: p :: _ => if p.isAlpha then some p else none
            | ['='] => none
            | _ => none
          some (fF, fR, tF, tR, promo)
      else none
    | [] => none

/-- Δ/δ → D/d normalisation applied before the regexes
(`text.replace('Δ','D').replace('δ','d')`). -/
def deltaNormalize (c : Char) : Char :=
  if c = 'Δ' then 'D' else if c = 'δ' then 'd' else c

/-- Embedding of `_parse_title_coords`: decode a move string written in
chess.com's internal 14×14 coordinate frame into a UCI move string.
Tries the drop pattern first, then the standard/capture pattern; the
promotion letter is lowercased and remapped through
`{'e' ↦ 'c', 'h' ↦ 'a'}` (plus `'f' ↦ 'q'` for chaturanga), all other
letters passing through unchanged. -/
def parseTitleCoords (text : String) (numFiles numRanks : ℤ)
    (variant : String) : Option String :=
  let cs := text.data.map deltaNormalize
  match matchDrop cs with
  | some (p, fCh, rv) =>
    match conv numFiles numRanks fCh rv with
    | none => none
    | some toSq => some (String.mk [p.toUpper] ++ "@" ++ toSq)
  | none =>
    match matchMain cs with
    | none => none
    | some (fF, fR, tF, tR, promo) =>
      match conv numFiles numRanks fF fR, conv numFiles numRanks tF tR with
      | some fromSq, some toSq =>
        let uci := fromSq ++ toSq
        match promo with
        | none => some uci
        | some p =>
          let pl := p.toLower
          let mapped : Char :=
            if pl = 'e' then 'c'
            else if pl = 'h' then 'a'
            else if variant = "chaturanga" && pl = 'f' then 'q'
            else pl
          some (uci ++ String.mk [mapped])
      | _, _ => none

/-- Serialisation of a real-board square from its 1-based file number and
rank: `chr(ord('a') + file - 1)` followed by the decimal rank. -/
def serializeSquare (f r : ℤ) : String :=
  String.mk [Char.ofNat ('a'.toNat + (f - 1).toNat)] ++ Nat.repr r.toNat

/-- A lowercase character (codepoint ≥ 97) is fixed by `Char.toLower`. -/
lemma char_toLower_fixed {c : Char} (h : 97 ≤ c.toNat) : c.toLower = c := by
  have h90 : ¬ (c.toNat ≤ 90) := by omega
  simp [Char.toLower, h90]

/-- C2.  Host-frame decode: a raw 14×14-frame coordinate (lowercase file
letter `c`, rank value `rv`) is decoded by subtracting
`offset = (14 - n) // 2` per axis; the decode returns the resulting
square exactly when it lies within `[1,files] × [1,ranks]` and none
otherwise.  In particular the move text "j11-k9" on an 8×8 board
(offset 3,3) decodes to g8 and h6, producing "g8h6". -/
theorem host_frame_decode (files ranks : ℤ) (c : Char) (rv : ℕ)
    (hfile : files ≤ 14) (hrank : ranks ≤ 14)
    (hc1 : 97 ≤ c.toNat) (hc2 : c.toNat ≤ 110) :
    (conv files ranks c rv =
      let offF : ℤ := Int.fdiv (14 - files) 2
      let offR : ℤ := Int.fdiv (14 - ranks) 2
      let f : ℤ := ((c.toNat : ℤ) - 96) - offF
      let r : ℤ := (rv : ℤ) - offR
      if 1 ≤ f ∧ f ≤ files ∧ 1 ≤ r ∧ r ≤ ranks
      then some (serializeSquare f r) else none)
    ∧ parseTitleCoords "j11-k9" 8 8 "" = some "g8h6" := by
  constructor
  · have ha : 'a'.toNat = 97 := rfl
    rw [conv, char_toLower_fixed hc1]
    simp only [serializeSquare, ha]
    split_ifs with h1 h2 <;>
      first
      | rfl
      | (exfalso; omega)
      | (congr 5 <;> omega)
  · rfl

/-- Witness for C2 at concrete inputs: raw square k9 on an 8×8 board
decodes to h6 (and the closed conjunct holds). -/
theorem host_frame_decode_witness :
    (conv 8 8 'k' 9 =
      let offF : ℤ := Int.fdiv (14 - 8) 2
      let offR : ℤ := Int.fdiv (14 - 8) 2
      let f : ℤ := (('k'.toNat : ℤ) - 96) - offF
      let r : ℤ := ((9 : ℕ) : ℤ) - offR
      if 1 ≤ f ∧ f ≤ 8 ∧ 1 ≤ r ∧ r ≤ 8
      then some (serializeSquare f r) else none)
    ∧ parseTitleCoords "j11-k9" 8 8 "" = some "g8h6" :=
  host_frame_decode 8 8 'k' 9 (by norm_num) (by norm_num)
    (by decide) (by decide)

/-! ## Move inference from highlights (`get_last_move`,
chesscom_interface.py 4163-4280)

The scraped snapshot is modelled by the move-list title/text strings, the
geometry, the non-empty move-cell count and the list of highlighted
squares (each optionally annotated with its occupying piece's UCI
letter).  The decision logic below `data = execute_script(...)` is
embedded verbatim. -/

/-- One highlighted square of the snapshot: the algebraic square name and
the occupying piece's lowercase UCI letter, if any (the JS `piece` field
is either a single-character string from the piece-letter tables or
null, so it is modelled as an optional character). -/
structure Highlight where
  square : String
  piece : Option Char
deriving Repr, DecidableEq

/-- `int(s[1:])` guarded by `except ValueError`: the rank digits of a
square string, or none when the tail is not a plain decimal numeral
(Python `int()` also accepts signs and underscores, which square names
never carry). -/
def rankDigits (s : String) : Option ℕ :=
  match s.data with
  | [] => none
  | _ :: tail =>
    if tail ≠ [] ∧ tail.all (fun c => c.isDigit) then
      some (tail.foldl (fun acc c => 10 * acc + digitVal c) 0)
    else none

/-- `ord(s[0])` — the scraper only produces non-empty square names;
the empty string (on which Python would raise) is modelled as 0. -/
def firstCharCode (s : String) : ℕ :=
  match s.data with
  | [] => 0
  | c :: _ => c.toNat

/-- Python `max(l, key=ord-of-first-char)`: first element of maximal key
(replace only on strictly greater). -/
def pyMaxByCode : List Highlight → Option Highlight
  | [] => none
  | h :: t =>
    some (t.foldl
      (fun best x =>
        if firstCharCode best.square < firstCharCode x.square then x else best) h)

/-- Python `min(l, key=ord-of-first-char)`: first element of minimal key
(replace only on strictly smaller). -/
def pyMinByCode : List Highlight → Option Highlight
  | [] => none
  | h :: t =>
    some (t.foldl
      (fun best x =>
        if firstCharCode x.square < firstCharCode best.square then x else best) h)

/-- The title-coordinate phase of `get_last_move`:
`for candidate in (last_move_title, last_move_text)`, skipping empty
(falsy) candidates, returning the first successful
`_parse_title_coords` result.  Both strings arrive `.strip()`-ed (the
source strips them on extraction from the script result). -/
def titlePhase (title text : String) (numFiles numRanks : ℤ)
    (variant : String) : Option String :=
  match (if title = "" then none
         else parseTitleCoords title numFiles numRanks variant) with
  | some u => some u
  | none =>
    if text = "" then none
    else parseTitleCoords text numFiles numRanks variant

/-- The 2-highlight normal-move/promotion step of `get_last_move`
(chesscom_interface.py 4260-4278) given the chosen source and
destination highlights: ranks are read with `int(sq[1:])` (both falling
back to 0 if either raises); the promotion suffix is appended when the
destination rank is 1 or `num_ranks`, the source rank is 2 or
`num_ranks - 1`, and the landing piece is not a pawn. -/
def twoSquarePromo (numRanks : ℤ) (src dest : Highlight) : Option String :=
  let fromSq := src.square
  let toSq := dest.square
  let endingPiece : Char := dest.piece.getD ' '  -- dest is always occupied
  let ranksPair : ℕ × ℕ :=
    match rankDigits toSq, rankDigits fromSq with
    | some d, some s => (d, s)
    | _, _ => (0, 0)
  if (ranksPair.1 = 1 ∨ (ranksPair.1 : ℤ) = numRanks)
      ∧ (ranksPair.2 = 2 ∨ (ranksPair.2 : ℤ) = numRanks - 1)
      ∧ endingPiece ≠ 'p' then
    some (fromSq ++ toSq ++ endingPiece.toString)
  else some (fromSq ++ toSq)

/-- The interesting-square-count fallback of `get_last_move`
(chesscom_interface.py 4233-4280): 0 highlights → none; 1 highlight →
drop of its occupant (none if unoccupied); 2 highlights → normal move
with destination = first occupied highlight and source = the second
occupied one if both are occupied, else the unoccupied one; more than
2 → none. -/
def highlightCountMove (numRanks : ℤ) (highlights : List Highlight) :
    Option String :=
  match highlights with
  | [] => none
  | [h] =>
    match h.piece with
    | none => none
    | some p => some (p.toUpper.toString ++ "@" ++ h.square)
  | [h1, h2] =>
    let withPiece := [h1, h2].filter (fun h => h.piece.isSome)
    let withoutPiece := [h1, h2].filter (fun h => h.piece.isNone)
    if withPiece.length = 0 then none
    else
      let dest := withPiece.headD h1
      let src := if withPiece.length = 2 then withPiece.getD 1 h1
                 else withoutPiece.headD h1
      twoSquarePromo numRanks src dest
  | _ => none

/-- The castling branch of `get_last_move` (chesscom_interface.py
4182-4231), reached when the stripped move-list text is exactly `O-O`
(`isKingside = true`) or `O-O-O`: fixed squares for the 8×8 and 10×8
geometries with the side from the move-count parity (odd → white);
otherwise the two vacated (piece-less) highlights determine the move,
the rook's square being the outermost on the castling side and the
king's the first other vacated square, encoded king-from ++ rook-from. -/
def castleMove (isKingside : Bool) (numFiles numRanks : ℤ) (moveCount : ℕ)
    (highlights : List Highlight) : Option String :=
  let whiteCastle := moveCount % 2 = 1
  if numFiles = 8 ∧ numRanks = 8 then
    some (if whiteCastle then (if isKingside then "e1g1" else "e1c1")
          else (if isKingside then "e8g8" else "e8c8"))
  else if numFiles = 10 ∧ numRanks = 8 then
    some (if whiteCastle then (if isKingside then "f1i1" else "f1c1")
          else (if isKingside then "f8i8" else "f8c8"))
  else
    let withoutPiece := highlights.filter (fun h => h.piece.isNone)
    if withoutPiece.length < 2 then none
    else
      match (if isKingside then pyMaxByCode withoutPiece
             else pyMinByCode withoutPiece) with
      | none => none
      | some rookSrc =>
        match withoutPiece.filter (fun h => h.square ≠ rookSrc.square) with
        | [] => none
        | kingSrc :: _ => some (kingSrc.square ++ rookSrc.square)

/-- Embedding of the decision logic of `get_last_move` below the script
call (chesscom_interface.py 4163-4280): title-coordinate decode first,
then the exact castle markers, then the interesting-square-count
fallback.  `lastMoveTitle`/`lastMoveText` are the `.strip()`-ed strings
the source computes at lines 4165-4166. -/
def getLastMoveCore (lastMoveTitle lastMoveText : String) (variant : String)
    (numFiles numRanks : ℤ) (moveCount : ℕ)
    (highlights : List Highlight) : Option String :=
  match titlePhase lastMoveTitle lastMoveText numFiles numRanks variant with
  | some uci => some uci
  | none =>
    if lastMoveText = "O-O" then
      castleMove true numFiles numRanks moveCount highlights
    else if lastMoveText = "O-O-O" then
      castleMove false numFiles numRanks moveCount highlights
    else highlightCountMove numRanks highlights

/-- The castle markers never parse as host-frame coordinates: the main
regex requires a lowercase file letter where "O-O" has `O`/`-`. -/
lemma parseTitleCoords_OO (files ranks : ℤ) (v : String) :
    parseTitleCoords "O-O" files ranks v = none := rfl

/-- Queenside variant of the previous lemma. -/
lemma parseTitleCoords_OOO (files ranks : ℤ) (v : String) :
    parseTitleCoords "O-O-O" files ranks v = none := rfl

/-- Squares whose leading characters differ are different strings. -/
lemma ne_of_firstCharCode_ne {s t : String}
    (h : firstCharCode s ≠ firstCharCode t) : s ≠ t :=
  fun he => h (he ▸ rfl)

/-- When the title phase fails and the text is not a castle marker,
`get_last_move` runs the interesting-square-count fallback. -/
lemma getLastMoveCore_fallback (title text variant : String)
    (files ranks : ℤ) (mc : ℕ) (hs : List Highlight)
    (hT : titlePhase title text files ranks variant = none)
    (hK : text ≠ "O-O") (hQ : text ≠ "O-O-O") :
    getLastMoveCore title text variant files ranks mc hs
      = highlightCountMove ranks hs := by
  simp only [getLastMoveCore, hT]
  rw [if_neg hK, if_neg hQ]

/-- When the title phase fails and the text is exactly a castle marker,
`get_last_move` runs the castling branch. -/
lemma getLastMoveCore_castle (title variant : String)
    (files ranks : ℤ) (mc : ℕ) (hs : List Highlight)
    (hTi : title = "" ∨ parseTitleCoords title files ranks variant = none) :
    (getLastMoveCore title "O-O" variant files ranks mc hs
      = castleMove true files ranks mc hs)
    ∧ (getLastMoveCore title "O-O-O" variant files ranks mc hs
      = castleMove false files ranks mc hs) := by
  have hT : ∀ t : String, (if title = "" then none
      else parseTitleCoords title files ranks variant) = (none : Option String) := by
    intro t
    rcases hTi with h | h
    · rw [if_pos h]
    · split_ifs <;> simp [h]
  constructor
  · simp only [getLastMoveCore, titlePhase, hT ""]
    rw [if_neg (by decide), parseTitleCoords_OO]
    simp
  · simp only [getLastMoveCore, titlePhase, hT ""]
    rw [if_neg (by decide), parseTitleCoords_OOO]
    simp

/-- C3.  Interesting-square counting fallback: when neither the
host-frame decode nor the castling-text path applies, the snapshot of
interesting squares yields: 0 squares → none; 1 occupied square → a
drop of the occupant (black knight on g3 → "N@g3"); 1 unoccupied
square → none; 2 squares with exactly one occupied → a normal move from
the unoccupied to the occupied square (empty e2 + white pawn e4 →
"e2e4"); 2 unoccupied squares → none; more than 2 squares → none.  The
undetectable outcome is the value `none` of a total function, never an
exception. -/
theorem interesting_square_fallback (title text variant : String)
    (files ranks : ℤ) (mc : ℕ)
    (hT : titlePhase title text files ranks variant = none)
    (hK : text ≠ "O-O") (hQ : text ≠ "O-O-O") :
    (getLastMoveCore title text variant files ranks mc [] = none)
    ∧ (∀ sq p, getLastMoveCore title text variant files ranks mc [⟨sq, some p⟩]
        = some (p.toUpper.toString ++ "@" ++ sq))
    ∧ (∀ sq, getLastMoveCore title text variant files ranks mc [⟨sq, none⟩] = none)
    ∧ (∀ s1 s2 p, ∃ suffix,
        getLastMoveCore title text variant files ranks mc [⟨s1, none⟩, ⟨s2, some p⟩]
          = some (s1 ++ s2 ++ suffix))
    ∧ (∀ s1 s2 p, ∃ suffix,
        getLastMoveCore title text variant files ranks mc [⟨s1, some p⟩, ⟨s2, none⟩]
          = some (s2 ++ s1 ++ suffix))
    ∧ (∀ s1 s2, getLastMoveCore title text variant files ranks mc
        [⟨s1, none⟩, ⟨s2, none⟩] = none)
    ∧ (∀ hs : List Highlight, 2 < hs.length →
        getLastMoveCore title text variant files ranks mc hs = none)
    ∧ (getLastMoveCore title text variant files ranks mc [⟨"g3", some 'n'⟩]
        = some "N@g3")
    ∧ (getLastMoveCore title text variant files ranks mc
        [⟨"e2", none⟩, ⟨"e4", some 'p'⟩] = some "e2e4") := by
  have hfb := fun hs => getLastMoveCore_fallback title text variant files ranks mc hs hT hK hQ
  refine ⟨?_, ?_, ?_, ?_, ?_, ?_, ?_, ?_, ?_⟩
  · rw [hfb]; rfl
  · intro sq p
    rw [hfb]; rfl
  · intro sq
    rw [hfb]; rfl
  · intro s1 s2 p
    rw [hfb]
    simp only [highlightCountMove, twoSquarePromo, List.filter, Option.isSome_none,
      Option.isSome_some, Option.isNone_none, Option.isNone_some, List.length,
      List.headD, List.getD, Option.getD_some]
    norm_num
    split_ifs with h
    · exact ⟨p.toString, rfl⟩
    · exact ⟨"", by rw [String.append_empty]⟩
  · intro s1 s2 p
    rw [hfb]
    simp only [highlightCountMove, twoSquarePromo, List.filter, Option.isSome_none,
      Option.isSome_some, Option.isNone_none, Option.isNone_some, List.length,
      List.headD, List.getD, Option.getD_some]
    norm_num
    split_ifs with h
    · exact ⟨p.toString, rfl⟩
    · exact ⟨"", by rw [String.append_empty]⟩
  · intro s1 s2
    rw [hfb]
    rfl
  · intro hs hlen
    match hs, hlen with
    | a :: b :: c :: t, _ => rw [hfb]; rfl
  · rw [hfb]
    rfl
  · rw [hfb]
    simp only [highlightCountMove, twoSquarePromo, List.filter, Option.isSome_none,
      Option.isSome_some, Option.isNone_none, Option.isNone_some, List.length,
      List.headD, List.getD, Option.getD_some]
    norm_num
    rfl

/-- Witness for C3 at concrete inputs: empty title and text on an 8×8
board discharge the no-decode/no-castle hypotheses; the conjunction then
holds (e.g. the concrete N@g3 and e2e4 conjuncts). -/
theorem interesting_square_fallback_witness :
    (getLastMoveCore "" "" "" 8 8 0 [] = none)
    ∧ (∀ sq p, getLastMoveCore "" "" "" 8 8 0 [⟨sq, some p⟩]
        = some (p.toUpper.toString ++ "@" ++ sq))
    ∧ (∀ sq, getLastMoveCore "" "" "" 8 8 0 [⟨sq, none⟩] = none)
    ∧ (∀ s1 s2 p, ∃ suffix,
        getLastMoveCore "" "" "" 8 8 0 [⟨s1, none⟩, ⟨s2, some p⟩]
          = some (s1 ++ s2 ++ suffix))
    ∧ (∀ s1 s2 p, ∃ suffix,
        getLastMoveCore "" "" "" 8 8 0 [⟨s1, some p⟩, ⟨s2, none⟩]
          = some (s2 ++ s1 ++ suffix))
    ∧ (∀ s1 s2, getLastMoveCore "" "" "" 8 8 0 [⟨s1, none⟩, ⟨s2, none⟩] = none)
    ∧ (∀ hs : List Highlight, 2 < hs.length →
        getLastMoveCore "" "" "" 8 8 0 hs = none)
    ∧ (getLastMoveCore "" "" "" 8 8 0 [⟨"g3", some 'n'⟩] = some "N@g3")
    ∧ (getLastMoveCore "" "" "" 8 8 0 [⟨"e2", none⟩, ⟨"e4", some 'p'⟩]
        = some "e2e4") :=
  interesting_square_fallback "" "" "" 8 8 0 rfl
    (by decide) (by decide)

/-- C4 counterexample.  The claim resolves castling "from fixed squares
for 8-file and 10-file boards", but the source branches on the exact
(files, ranks) pairs (8,8) and (10,8): on an 8-file, 10-rank board the
vacated-highlight derivation runs instead, so the result depends on the
highlights — two different highlight sets give two different moves, and
neither is the 8-file fixed-square move e1g1. -/
theorem castling_width_counterexample :
    getLastMoveCore "" "O-O" "" 8 10 1 [⟨"a1", none⟩, ⟨"b1", none⟩] = some "a1b1"
    ∧ getLastMoveCore "" "O-O" "" 8 10 1 [⟨"d1", none⟩, ⟨"f1", none⟩] = some "d1f1"
    ∧ ("a1b1" : String) ≠ "d1f1" ∧ ("a1b1" : String) ≠ "e1g1" := by
  refine ⟨rfl, rfl, by decide, by decide⟩

/-- C4 (amended).  Castling resolution: when the stripped move-log text
is exactly "O-O" or "O-O-O", the move comes from fixed squares for the
8×8 and 10×8 (files × ranks) geometries, the side taken from the
move-count parity (odd → white, e.g. "O-O" with odd count on 8×8 →
e1g1); for any other geometry — including other 8-file or 10-file
boards — the two vacated interesting squares determine it: the rook's
vacated square is the outermost on the castling side (max first-letter
code for kingside, min for queenside), the king's is the other, encoded
kingFrom ++ rookFrom. -/
theorem castling_resolution (variant : String) (mc : ℕ)
    (files ranks : ℤ) (hs : List Highlight) (h1 h2 : Highlight)
    (hG8 : ¬ (files = 8 ∧ ranks = 8)) (hG10 : ¬ (files = 10 ∧ ranks = 8))
    (hvac : hs.filter (fun h => h.piece.isNone) = [h1, h2])
    (hord : firstCharCode h1.square < firstCharCode h2.square) :
    (∀ hs2 : List Highlight, getLastMoveCore "" "O-O" variant 8 8 mc hs2
        = some (if mc % 2 = 1 then "e1g1" else "e8g8"))
    ∧ (∀ hs2 : List Highlight, getLastMoveCore "" "O-O-O" variant 8 8 mc hs2
        = some (if mc % 2 = 1 then "e1c1" else "e8c8"))
    ∧ (∀ hs2 : List Highlight, getLastMoveCore "" "O-O" variant 10 8 mc hs2
        = some (if mc % 2 = 1 then "f1i1" else "f8i8"))
    ∧ (∀ hs2 : List Highlight, getLastMoveCore "" "O-O-O" variant 10 8 mc hs2
        = some (if mc % 2 = 1 then "f1c1" else "f8c8"))
    ∧ (getLastMoveCore "" "O-O" variant files ranks mc hs
        = some (h1.square ++ h2.square))
    ∧ (getLastMoveCore "" "O-O-O" variant files ranks mc hs
        = some (h2.square ++ h1.square)) := by
  have hne : h1.square ≠ h2.square := ne_of_firstCharCode_ne (Nat.ne_of_lt hord)
  refine ⟨?_, ?_, ?_, ?_, ?_, ?_⟩
  · intro hs2
    rw [(getLastMoveCore_castle "" variant 8 8 mc hs2 (Or.inl rfl)).1]
    simp [castleMove]
  · intro hs2
    rw [(getLastMoveCore_castle "" variant 8 8 mc hs2 (Or.inl rfl)).2]
    simp [castleMove]
  · intro hs2
    rw [(getLastMoveCore_castle "" variant 10 8 mc hs2 (Or.inl rfl)).1]
    simp [castleMove]
  · intro hs2
    rw [(getLastMoveCore_castle "" variant 10 8 mc hs2 (Or.inl rfl)).2]
    simp [castleMove]
  · rw [(getLastMoveCore_castle "" variant files ranks mc hs (Or.inl rfl)).1]
    simp only [castleMove, hvac]
    rw [if_neg hG8, if_neg hG10, if_neg (by norm_num)]
    simp only [pyMaxByCode, List.foldl, if_pos hord, List.filter]
    simp [hne]
  · rw [(getLastMoveCore_castle "" variant files ranks mc hs (Or.inl rfl)).2]
    simp only [castleMove, hvac]
    rw [if_neg hG8, if_neg hG10, if_neg (by norm_num)]
    simp only [pyMinByCode, List.foldl, if_neg (Nat.not_lt.mpr (Nat.le_of_lt hord)),
      List.filter]
    simp [hne, Ne.symm hne]

/-- Witness for C4 (amended) at concrete inputs: an 8×10 board with the
vacated squares a1 and b1, odd move count. -/
theorem castling_resolution_witness :
    (∀ hs2 : List Highlight, getLastMoveCore "" "O-O" "" 8 8 1 hs2
        = some (if 1 % 2 = 1 then "e1g1" else "e8g8"))
    ∧ (∀ hs2 : List Highlight, getLastMoveCore "" "O-O-O" "" 8 8 1 hs2
        = some (if 1 % 2 = 1 then "e1c1" else "e8c8"))
    ∧ (∀ hs2 : List Highlight, getLastMoveCore "" "O-O" "" 10 8 1 hs2
        = some (if 1 % 2 = 1 then "f1i1" else "f8i8"))
    ∧ (∀ hs2 : List Highlight, getLastMoveCore "" "O-O-O" "" 10 8 1 hs2
        = some (if 1 % 2 = 1 then "f1c1" else "f8c8"))
    ∧ (getLastMoveCore "" "O-O" "" 8 10 1 [⟨"a1", none⟩, ⟨"b1", none⟩]
        = some (("a1" : String) ++ "b1"))
    ∧ (getLastMoveCore "" "O-O-O" "" 8 10 1 [⟨"a1", none⟩, ⟨"b1", none⟩]
        = some (("b1" : String) ++ "a1")) :=
  castling_resolution "" 1 8 10 [⟨"a1", none⟩, ⟨"b1", none⟩]
    ⟨"a1", none⟩ ⟨"b1", none⟩ (by norm_num) (by norm_num) rfl (by decide)

/-- C5 counterexample.  The claim pairs the edges: suffix exactly when
(dest rank 1 with src rank 2) or (dest rank ranks with src rank
ranks-1).  The source tests the two memberships independently: a queen
arriving on a1 from a7 on an 8×8 board (dest rank 1, src rank
7 = ranks-1) gets a promotion suffix, where the claim says it must
not. -/
theorem promotion_pairing_counterexample :
    getLastMoveCore "" "" "" 8 8 0 [⟨"a7", none⟩, ⟨"a1", some 'q'⟩] = some "a7a1q"
    ∧ ("a7a1q" : String) ≠ "a7a1" := by
  refine ⟨rfl, by decide⟩

/-- C5 (amended).  Promotion heuristic: in the 2-interesting-square
fallback the promotion suffix (the arriving piece's letter) is appended
exactly when the destination rank is a board edge (1 or `ranks`), the
source rank is 2 or `ranks - 1` — the two conditions tested
independently, not paired per edge — and the arriving piece is not a
pawn; in all other 2-square cases no suffix is produced. -/
theorem promotion_heuristic (title text variant : String)
    (files ranks : ℤ) (mc : ℕ) (s1 s2 : String) (p q : Char) (r1 r2 : ℕ)
    (hT : titlePhase title text files ranks variant = none)
    (hK : text ≠ "O-O") (hQ : text ≠ "O-O-O")
    (hr1 : rankDigits s1 = some r1) (hr2 : rankDigits s2 = some r2) :
    (getLastMoveCore title text variant files ranks mc [⟨s1, none⟩, ⟨s2, some p⟩]
      = if (r2 = 1 ∨ (r2 : ℤ) = ranks) ∧ (r1 = 2 ∨ (r1 : ℤ) = ranks - 1) ∧ p ≠ 'p'
        then some (s1 ++ s2 ++ p.toString) else some (s1 ++ s2))
    ∧ (getLastMoveCore title text variant files ranks mc [⟨s2, some p⟩, ⟨s1, none⟩]
      = if (r2 = 1 ∨ (r2 : ℤ) = ranks) ∧ (r1 = 2 ∨ (r1 : ℤ) = ranks - 1) ∧ p ≠ 'p'
        then some (s1 ++ s2 ++ p.toString) else some (s1 ++ s2))
    ∧ (getLastMoveCore title text variant files ranks mc [⟨s2, some p⟩, ⟨s1, some q⟩]
      = if (r2 = 1 ∨ (r2 : ℤ) = ranks) ∧ (r1 = 2 ∨ (r1 : ℤ) = ranks - 1) ∧ p ≠ 'p'
        then some (s1 ++ s2 ++ p.toString) else some (s1 ++ s2)) := by
  refine ⟨?_, ?_, ?_⟩ <;>
    · rw [getLastMoveCore_fallback title text variant files ranks mc _ hT hK hQ]
      simp only [highlightCountMove, twoSquarePromo, List.filter, Option.isSome_none,
        Option.isSome_some, Option.isNone_none, Option.isNone_some, List.length,
        List.headD, List.getD, Option.getD_some, hr1, hr2]
      norm_num
      simp only [hr1, hr2]

/-- Witness for C5 (amended) at concrete inputs: a7→a8 with a queen
arriving on an 8×8 board. -/
theorem promotion_heuristic_witness :
    (getLastMoveCore "" "" "" 8 8 0 [⟨"a7", none⟩, ⟨"a8", some 'q'⟩]
      = if ((8 : ℕ) = 1 ∨ ((8 : ℕ) : ℤ) = 8) ∧ ((7 : ℕ) = 2 ∨ ((7 : ℕ) : ℤ) = 8 - 1)
            ∧ 'q' ≠ 'p'
        then some (("a7" : String) ++ "a8" ++ 'q'.toString)
        else some (("a7" : String) ++ "a8"))
    ∧ (getLastMoveCore "" "" "" 8 8 0 [⟨"a8", some 'q'⟩, ⟨"a7", none⟩]
      = if ((8 : ℕ) = 1 ∨ ((8 : ℕ) : ℤ) = 8) ∧ ((7 : ℕ) = 2 ∨ ((7 : ℕ) : ℤ) = 8 - 1)
            ∧ 'q' ≠ 'p'
        then some (("a7" : String) ++ "a8" ++ 'q'.toString)
        else some (("a7" : String) ++ "a8"))
    ∧ (getLastMoveCore "" "" "" 8 8 0 [⟨"a8", some 'q'⟩, ⟨"a7", some 'n'⟩]
      = if ((8 : ℕ) = 1 ∨ ((8 : ℕ) : ℤ) = 8) ∧ ((7 : ℕ) = 2 ∨ ((7 : ℕ) : ℤ) = 8 - 1)
            ∧ 'q' ≠ 'p'
        then some (("a7" : String) ++ "a8" ++ 'q'.toString)
        else some (("a7" : String) ++ "a8")) :=
  promotion_heuristic "" "" "" 8 8 0 "a7" "a8" 'q' 'n' 7 8
    rfl (by decide) (by decide) rfl rfl

/-! ## Event monitor: game-over gating and idempotence
(src/src/variants_client.py)

The client's mutable fields touched by `handle_game_over` and the
game-over part of `process_console_events` are modelled as a record;
times are rationals (seconds, `time.monotonic()`).  The three externally
visible effects of one game-over handling — dialog dismissal, engine
stop, session reset — are counted in the state so "exactly once" is a
statement about counters. -/

/-- The client fields read or written by game-over processing
(variants_client.py 47-88, 385-480, 528-600).  `engineRunning` models
`engine_manager.process is not None`; the three counters record the
effects of handling (dialog dismissal at line 444, engine stop at 455,
session reset at 470-476). -/
structure ClientState where
  currentGameNumber : Option ℕ
  lastGameNumber : Option ℕ
  gameOverHandledFor : Option ℕ
  newGameSettled : Bool
  gameStartTime : ℚ
  lastGameOverPoll : ℚ
  wasInGame : Bool
  gameGeneration : ℕ
  engineRunning : Bool
  lastPromoCheck : ℚ
  dismissCount : ℕ
  engineStopCount : ℕ
  sessionResetCount : ℕ
deriving Repr, DecidableEq

/-- Embedding of `handle_game_over` (variants_client.py 385-480).
Guards in source order: no confirmed game number → return; already
handled for this game → return; new-game setup not settled → return;
game younger than `_MIN_GAME_AGE = 3.0` seconds → return; full detection
(`detect_game_over()`, an external read passed as `detect`) negative →
return.  Otherwise: record the handled-for marker, dismiss the dialog,
stop the engine if running, sleep 2 s (during which another thread's
`check_for_game_start` may replace `current_game_number`; its value
after the sleep is the parameter `postSleepGameNumber`), record
`last_game_number`, and reset the session only if the game number is
unchanged. -/
def handleGameOver (s : ClientState) (now : ℚ) (detect : Bool)
    (postSleepGameNumber : Option ℕ) : ClientState :=
  match s.currentGameNumber with
  | none => s
  | some g =>
    if s.gameOverHandledFor = some g then s
    else if ¬ s.newGameSettled then s
    else if now - s.gameStartTime < 3 then s
    else if ¬ detect then s
    else
      let s1 : ClientState :=
        { s with gameOverHandledFor := some g,
                 dismissCount := s.dismissCount + 1,
                 engineStopCount :=
                   s.engineStopCount + (if s.engineRunning then 1 else 0),
                 engineRunning := false }
      -- time.sleep(2.0); current_game_number may have been replaced
      let s2 : ClientState := { s1 with currentGameNumber := postSleepGameNumber }
      let s3 : ClientState := { s2 with lastGameNumber := some g }
      if s3.currentGameNumber = some g then
        { s3 with currentGameNumber := none, wasInGame := false,
                  sessionResetCount := s3.sessionResetCount + 1,
                  lastPromoCheck := 0 }
      else s3

/-- Embedding of the game-over portion of `process_console_events`
(variants_client.py 197-228): the push channel consumes the
`window.__gameOver` flag and calls `handle_game_over`; the fallback
channel runs only when the flag was not set, a game is believed active,
game-over is not yet handled for it, and at least 2 s have passed since
the last fallback poll; it then records the poll time and, if the
narrowly-scoped dialog scan (`dialogVisible`) hits, calls
`handle_game_over`. -/
def processGameOverEvents (s : ClientState) (now : ℚ) (gameOverFlag : Bool)
    (dialogVisible : Bool) (detect : Bool)
    (postSleepGameNumber : Option ℕ) : ClientState :=
  let s1 := if gameOverFlag then handleGameOver s now detect postSleepGameNumber
            else s
  if (¬ gameOverFlag) ∧ s1.wasInGame ∧ s1.currentGameNumber ≠ none
      ∧ s1.gameOverHandledFor ≠ s1.currentGameNumber then
    if 2 ≤ now - s1.lastGameOverPoll then
      let s2 := { s1 with lastGameOverPoll := now }
      if dialogVisible then handleGameOver s2 now detect postSleepGameNumber
      else s2
    else s1
  else s1

/-- The client state immediately after `check_for_game_start` confirms
game number 5 at time 0 with an engine configured (variants_client.py
528-600: settle gate re-raised at 599, handled-for cleared at 585, both
fallback poll clocks set to the confirmation time at 546-547,
`_game_start_time` set at 600; setup is taken as instantaneous). -/
def startedState : ClientState :=
  { currentGameNumber := some 5, lastGameNumber := none,
    gameOverHandledFor := none, newGameSettled := true,
    gameStartTime := 0, lastGameOverPoll := 0, wasInGame := true,
    gameGeneration := 1, engineRunning := true, lastPromoCheck := 0,
    dismissCount := 0, engineStopCount := 0, sessionResetCount := 0 }

/-- `startedState` after its game-over dialog is finally handled by the
fallback scan at time 4 (see `min_game_age_gating`). -/
def handledState : ClientState :=
  { currentGameNumber := none, lastGameNumber := some 5,
    gameOverHandledFor := some 5, newGameSettled := true,
    gameStartTime := 0, lastGameOverPoll := 4, wasInGame := false,
    gameGeneration := 1, engineRunning := false, lastPromoCheck := 0,
    dismissCount := 1, engineStopCount := 1, sessionResetCount := 1 }

/-- C6 counterexample.  The claim says the fallback DOM scan "only starts
polling after that same threshold" and that a fallback scan at the 2 s
mark is "accepted and processed exactly once".  In the source the
threshold is `_MIN_GAME_AGE = 3.0` s while the fallback polls on a 2.0 s
interval counted from game confirmation: the scan at the 2 s mark does
run, but the game-over it reports is dropped by the minimum-age guard
(only the poll clock advances; no dismissal happens). -/
theorem min_game_age_counterexample :
    handleGameOver startedState (1 / 2) true (some 5) = startedState
    ∧ processGameOverEvents startedState 2 false true true (some 5)
        = { startedState with lastGameOverPoll := 2 }
    ∧ (processGameOverEvents startedState 2 false true true (some 5)).dismissCount
        = 0 := by
  refine ⟨?_, ?_, ?_⟩ <;>
    · norm_num [handleGameOver, processGameOverEvents, startedState]
      <;> simp

/-- C6 (amended).  Minimum game age gating: every game-over signal (push
or fallback) arriving less than 3 s after the new game's setup completes
is dropped without any handling; the fallback scan polls on a 2 s
interval from game confirmation, so its first scan at the 2 s mark on a
still-visible dialog is itself dropped by the age guard (only the poll
clock advances), and the dialog is instead accepted at the next scan at
the 4 s mark and processed exactly once, every later delivery being a
no-op. -/
theorem min_game_age_gating :
    (∀ (s : ClientState) (now : ℚ) (detect : Bool) (post : Option ℕ),
      now - s.gameStartTime < 3 → handleGameOver s now detect post = s)
    ∧ (∀ (s : ClientState) (now : ℚ) (dlg detect : Bool) (post : Option ℕ),
      now - s.lastGameOverPoll < 2 →
      processGameOverEvents s now false dlg detect post = s)
    ∧ handleGameOver startedState (1 / 2) true (some 5) = startedState
    ∧ processGameOverEvents startedState 2 false true true (some 5)
        = { startedState with lastGameOverPoll := 2 }
    ∧ processGameOverEvents { startedState with lastGameOverPoll := 2 }
        4 false true true (some 5) = handledState
    ∧ handledState.dismissCount = 1 ∧ handledState.engineStopCount = 1
    ∧ handledState.sessionResetCount = 1
    ∧ (∀ (now2 : ℚ) (flag dlg detect : Bool) (post : Option ℕ),
      processGameOverEvents handledState now2 flag dlg detect post
        = handledState) := by
  refine ⟨?_, ?_, ?_, ?_, ?_, rfl, rfl, rfl, ?_⟩
  · intro s now detect post hyoung
    obtain ⟨c, lgn, gof, ns, gst, pl, wig, gen, er, lpc, dc, esc, src⟩ := s
    dsimp only at hyoung ⊢
    cases c with
    | none => rfl
    | some g =>
      simp only [handleGameOver]
      split_ifs with h1 h2 h3 <;> first | rfl | (exfalso; exact h3 hyoung)
  · intro s now dlg detect post hpoll
    obtain ⟨c, lgn, gof, ns, gst, pl, wig, gen, er, lpc, dc, esc, src⟩ := s
    dsimp only at hpoll
    have h2 : ¬ (2 ≤ now - pl) := not_le.mpr hpoll
    simp only [processGameOverEvents, Bool.false_eq_true, if_false]
    split_ifs <;> first | rfl | (exfalso; linarith)
  · norm_num [handleGameOver, startedState]
  · norm_num [handleGameOver, processGameOverEvents, startedState] <;> simp
  · norm_num [handleGameOver, processGameOverEvents, startedState, handledState]
      <;> simp
  · intro now2 flag dlg detect post
    cases flag <;> simp [processGameOverEvents, handleGameOver, handledState]

/-- Witness for C6 (amended): the two hypothesised conjuncts applied at
the concrete started state inside the age window (time 1). -/
theorem min_game_age_gating_witness :
    handleGameOver startedState 1 true (some 5) = startedState
    ∧ processGameOverEvents startedState 1 false true true (some 5)
        = startedState :=
  ⟨min_game_age_gating.1 startedState 1 true (some 5) (by norm_num [startedState]),
   min_game_age_gating.2.1 startedState 1 true true (some 5)
     (by norm_num [startedState])⟩

/-- C7.  Idempotent game-over: a delivery for a confirmed game id with
all guards open and a positive detection handles exactly once — one
dialog dismissal, one engine stop (when an engine process exists), one
session reset — and records the handled-for marker; every subsequent
delivery on the resulting state is a no-op, and the handled-for marker
alone already makes any delivery for an id it records a no-op. -/
theorem game_over_idempotent (s : ClientState) (g : ℕ) (now : ℚ)
    (hcur : s.currentGameNumber = some g)
    (hmark : s.gameOverHandledFor ≠ some g)
    (hsettle : s.newGameSettled = true)
    (hage : 3 ≤ now - s.gameStartTime) :
    ((handleGameOver s now true (some g)).dismissCount = s.dismissCount + 1)
    ∧ ((handleGameOver s now true (some g)).engineStopCount
        = s.engineStopCount + (if s.engineRunning then 1 else 0))
    ∧ ((handleGameOver s now true (some g)).sessionResetCount
        = s.sessionResetCount + 1)
    ∧ ((handleGameOver s now true (some g)).gameOverHandledFor = some g)
    ∧ ((handleGameOver s now true (some g)).currentGameNumber = none)
    ∧ (∀ (now2 : ℚ) (detect2 : Bool) (post2 : Option ℕ),
        handleGameOver (handleGameOver s now true (some g)) now2 detect2 post2
          = handleGameOver s now true (some g))
    ∧ (∀ s' : ClientState, s'.currentGameNumber = some g →
        s'.gameOverHandledFor = some g →
        ∀ (n : ℚ) (d : Bool) (p : Option ℕ), handleGameOver s' n d p = s') := by
  obtain ⟨c, lgn, gof, ns, gst, pl, wig, gen, er, lpc, dc, esc, src⟩ := s
  dsimp only at hcur hmark hsettle hage ⊢
  subst hcur hsettle
  have hred : handleGameOver
      ⟨some g, lgn, gof, true, gst, pl, wig, gen, er, lpc, dc, esc, src⟩
      now true (some g)
      = ⟨none, some g, some g, true, gst, pl, false, gen, false, 0,
         dc + 1, esc + (if er then 1 else 0), src + 1⟩ := by
    simp only [handleGameOver]
    rw [if_neg hmark, if_neg (by simp), if_neg (not_lt.mpr hage), if_neg (by simp)]
    simp
  rw [hred]
  refine ⟨rfl, rfl, rfl, rfl, rfl, ?_, ?_⟩
  · intro now2 detect2 post2
    rfl
  · intro s' hc' hm' n d p
    obtain ⟨c', lgn', gof', ns', gst', pl', wig', gen', er', lpc', dc', esc', src'⟩ := s'
    dsimp only at hc' hm'
    subst hc' hm'
    simp [handleGameOver]

/-- Witness for C7: the started state at time 5 (age 5 ≥ 3, marker
clear, settled); the three effect counters each advance by one and every
subsequent delivery is a no-op. -/
theorem game_over_idempotent_witness :
    ((handleGameOver startedState 5 true (some 5)).dismissCount
        = startedState.dismissCount + 1)
    ∧ ((handleGameOver startedState 5 true (some 5)).engineStopCount
        = startedState.engineStopCount + (if startedState.engineRunning then 1 else 0))
    ∧ ((handleGameOver startedState 5 true (some 5)).sessionResetCount
        = startedState.sessionResetCount + 1)
    ∧ ((handleGameOver startedState 5 true (some 5)).gameOverHandledFor = some 5)
    ∧ ((handleGameOver startedState 5 true (some 5)).currentGameNumber = none)
    ∧ (∀ (now2 : ℚ) (detect2 : Bool) (post2 : Option ℕ),
        handleGameOver (handleGameOver startedState 5 true (some 5)) now2 detect2 post2
          = handleGameOver startedState 5 true (some 5))
    ∧ (∀ s' : ClientState, s'.currentGameNumber = some 5 →
        s'.gameOverHandledFor = some 5 →
        ∀ (n : ℚ) (d : Bool) (p : Option ℕ), handleGameOver s' n d p = s') :=
  game_over_idempotent startedState 5 5 rfl (by decide) rfl (by norm_num [startedState])

/-! ## Engine-result generation discard (variants_client.py 962-1090) -/

/-- The client fields the engine best-move callback reads and writes:
the current game generation and the running space-separated move list. -/
structure EngineCbState where
  gameGeneration : ℕ
  moveList : String
deriving Repr, DecidableEq

/-- Outcome of one `on_best_move` invocation: the resulting state,
whether `make_move` replayed the move to the board, and whether
`_verify_move_registered` was started. -/
structure BestMoveOutcome where
  state : EngineCbState
  movePlayed : Bool
  verifyStarted : Bool
deriving Repr, DecidableEq

/-- Embedding of the `on_best_move` closure in `_trigger_engine_move`
(variants_client.py 1054-1088): an empty (falsy) move returns; a
generation mismatch returns before any effect; otherwise the move is
appended to the move list, executed on the board, and verification is
started.  Timing bookkeeping has no control-flow effect and is
omitted. -/
def onBestMove (s : EngineCbState) (generation : ℕ) (uciMove : String) :
    BestMoveOutcome :=
  if uciMove = "" then ⟨s, false, false⟩
  else if s.gameGeneration ≠ generation then ⟨s, false, false⟩
  else ⟨{ s with moveList := s.moveList ++ uciMove ++ " " }, true, true⟩

/-- What one retry attempt of `_verify_move_registered` observes after
its sleep: the current game generation, whether a game is in progress,
and the last move `get_last_move()` reads from the board. -/
structure VerifyObs where
  genNow : ℕ
  inGame : Bool
  boardLastMove : Option String
deriving Repr, DecidableEq

/-- Embedding of the retry loop of `_verify_move_registered`
(variants_client.py 991-1027), counting `make_move` replays over a trace
of per-attempt observations (the trace length models `max_retries`):
each attempt aborts with no further replay if the generation changed or
the game ended, stops successfully if the board shows a move other than
the opponent's previous one, and otherwise replays the move and
retries. -/
def verifyReplays (generation : ℕ) (opponentLast : Option String) :
    List VerifyObs → ℕ
  | [] => 0
  | o :: rest =>
    if o.genNow ≠ generation then 0
    else if ¬ o.inGame then 0
    else if o.boardLastMove ≠ opponentLast then 0
    else 1 + verifyReplays generation opponentLast rest

/-- C8.  Generation discard: an engine best-move callback whose captured
generation differs from the current one performs no effect — state
unchanged, no replay, no verification; and a move-verification attempt
that observes a changed generation aborts with zero replays no matter
how many retries remain. -/
theorem generation_discard (s : EngineCbState) (generation : ℕ)
    (uciMove : String) (opponentLast : Option String)
    (o : VerifyObs) (rest : List VerifyObs)
    (hgen : s.gameGeneration ≠ generation) (hobs : o.genNow ≠ generation) :
    onBestMove s generation uciMove = ⟨s, false, false⟩
    ∧ verifyReplays generation opponentLast (o :: rest) = 0 := by
  constructor
  · unfold onBestMove
    by_cases h1 : uciMove = ""
    · rw [if_pos h1]
    · rw [if_neg h1, if_pos hgen]
  · unfold verifyReplays
    rw [if_pos hobs]

/-- Witness for C8 at concrete inputs: generation 1 captured, current
generation 2. -/
theorem generation_discard_witness :
    onBestMove ⟨2, ""⟩ 1 "e2e4" = ⟨⟨2, ""⟩, false, false⟩
    ∧ verifyReplays 1 (some "d7d5") [⟨2, true, some "d7d5"⟩] = 0 :=
  generation_discard ⟨2, ""⟩ 1 "e2e4" (some "d7d5") ⟨2, true, some "d7d5"⟩ []
    (by decide) (by decide)

/-! ## UCI move validation and parsing (src/src/uci_handler.py)

The two anchored regexes are embedded as character-list recognisers.
Their character classes are pairwise disjoint at every decision point
(a file letter is never a digit, a digit never a promotion letter), so
greedy matching reproduces Python `re` backtracking exactly. -/

/-- `[1-9]` ('1' = 49 … '9' = 57). -/
def digit19 (c : Char) : Bool := 49 ≤ c.toNat && c.toNat ≤ 57

/-- `[0-4]` ('0' = 48 … '4' = 52). -/
def digit04 (c : Char) : Bool := 48 ≤ c.toNat && c.toNat ≤ 52

/-- `[a-n]` ('a' = 97 … 'n' = 110). -/
def lowerFile (c : Char) : Bool := 97 ≤ c.toNat && c.toNat ≤ 110

/-- `[a-nA-N]` ('A' = 65 … 'N' = 78). -/
def anyCaseFile (c : Char) : Bool :=
  lowerFile c || (65 ≤ c.toNat && c.toNat ≤ 78)

/-- `[qrbnkuwfac]` — the promotion-piece letters. -/
def promoChars : List Char := ['q', 'r', 'b', 'n', 'k', 'u', 'w', 'f', 'a', 'c']

/-- `[QRNBPUWFACqrnbpuwfac]` — the drop-piece letters, either case. -/
def dropPieceChars : List Char :=
  ['Q', 'R', 'N', 'B', 'P', 'U', 'W', 'F', 'A', 'C',
   'q', 'r', 'n', 'b', 'p', 'u', 'w', 'f', 'a', 'c']

/-- Tail `[0-4]?[qrbnkuwfac]?$` of the regular-move pattern. -/
def matchRegularTail2 : List Char → Bool
  | [] => true
  | [c] => digit04 c || promoChars.contains c
  | [c1, c2] => digit04 c1 && promoChars.contains c2
  | _ => false

/-- `[a-n][1-9]` then `matchRegularTail2` — the destination square with
the optional promotion letter and the end anchor. -/
def matchRegularSecond : List Char → Bool
  | f :: d :: rest => lowerFile f && digit19 d && matchRegularTail2 rest
  | _ => false

/-- `[0-4]?` then the destination part: the optional second rank digit
is consumed greedily; on mismatch the backtracking alternative would
need the digit to be a file letter, which is impossible. -/
def matchRegularFirstTail : List Char → Bool
  | [] => false
  | c :: rest =>
    if digit04 c then matchRegularSecond rest
    else matchRegularSecond (c :: rest)

/-- The full regular-move pattern
`^[a-n][1-9][0-4]?[a-n][1-9][0-4]?[qrbnkuwfac]?$`
(uci_handler.py line 25). -/
def matchRegular : List Char → Bool
  | f :: d :: rest => lowerFile f && digit19 d && matchRegularFirstTail rest
  | _ => false

/-- The drop pattern `^[QRNBPUWFACqrnbpuwfac]@[a-nA-N][1-9][0-4]?$`
(uci_handler.py line 30). -/
def matchDropPattern : List Char → Bool
  | p :: a :: f :: d :: rest =>
    dropPieceChars.contains p && (a == '@') && anyCaseFile f && digit19 d &&
      (match rest with
       | [] => true
       | [c] => digit04 c
       | _ => false)
  | _ => false

/-- Embedding of `UCIHandler.validate_uci_move`: the regular pattern is
tried against `move.lower()`, the drop pattern against `move` itself.
Python's per-character ASCII lowering is `List.map Char.toLower`. -/
def validate_uci_move (move : List Char) : Bool :=
  matchRegular (move.map Char.toLower) || matchDropPattern move

/-- Python `str.strip()`: drop whitespace from both ends (move strings
never carry the exotic Unicode whitespace Python also strips). -/
def pyStrip (cs : List Char) : List Char :=
  ((cs.dropWhile Char.isWhitespace).reverse.dropWhile Char.isWhitespace).reverse

/-- Python `str.split('@')`. -/
def splitOnAmp : List Char → List (List Char)
  | [] => [[]]
  | c :: rest =>
    let r := splitOnAmp rest
    if c = '@' then [] :: r
    else (c :: r.headD []) :: r.tail

/-- Group `([1-9][0-4]?)`: one rank, greedy, returning digits and rest. -/
def parseRankGroup : List Char → Option (List Char × List Char)
  | d :: c :: rest =>
    if digit19 d then
      if digit04 c then some ([d, c], rest) else some ([d], c :: rest)
    else none
  | [d] => if digit19 d then some ([d], []) else none
  | [] => none

/-- The grouped regular-move pattern
`^([a-n])([1-9][0-4]?)([a-n])([1-9][0-4]?)([qrbnkuwfac]?)$`
(uci_handler.py line 77), returning from-square, to-square and the
optional promotion letter; an empty fifth group is Python-falsy and
becomes `none` (line 89). -/
def parseRegularGroups (cs : List Char) : Option (String × String × Option String) :=
  match cs with
  | [] => none
  | f1 :: rest1 =>
    if lowerFile f1 then
      match parseRankGroup rest1 with
      | none => none
      | some (r1, rest2) =>
        match rest2 with
        | [] => none
        | f2 :: rest3 =>
          if lowerFile f2 then
            match parseRankGroup rest3 with
            | none => none
            | some (r2, rest4) =>
              match rest4 with
              | [] => some (String.mk (f1 :: r1), String.mk (f2 :: r2), none)
              | [pc] =>
                if promoChars.contains pc then
                  some (String.mk (f1 :: r1), String.mk (f2 :: r2),
                        some (String.mk [pc]))
                else none
              | _ => none
          else none
    else none

/-- Result type of `parse_uci_move`: the two dict shapes the source
returns (`{'type':'normal', 'from', 'to', 'promotion'}` and
`{'type':'drop', 'piece', 'to'}`). -/
inductive ParsedMove where
  | normal (fromSq toSq : String) (promotion : Option String)
  | drop (piece : String) (toSq : String)
deriving Repr, DecidableEq

/-- Body of `UCIHandler.parse_uci_move` (uci_handler.py 36-92) after the
initial `move.strip()`: validate (else `none`); a string containing `@`
takes the drop branch (`move.upper().split('@')`, exactly two parts,
piece = first part, square = second part lowered); otherwise the
regular pattern is re-matched with groups against `move.lower()`.
Total by construction: the source's only outcomes are the two dict
shapes or `None`, and no exception escapes. -/
def parse_uci_move_stripped (m : List Char) : Option ParsedMove :=
  if ¬ validate_uci_move m then none
  else if '@' ∈ m then
    match splitOnAmp (m.map Char.toUpper) with
    | [p, sq] => some (.drop (String.mk p) (String.mk (sq.map Char.toLower)))
    | _ => none
  else
    match parseRegularGroups (m.map Char.toLower) with
    | none => none
    | some (f, t, pr) => some (.normal f t pr)

/-- `UCIHandler.parse_uci_move` itself: `move.strip()` then the body
above. -/
def parse_uci_move (move : String) : Option ParsedMove :=
  parse_uci_move_stripped (pyStrip move.data)

/-- A well-formed lowercase square token: `[a-n][1-9][0-4]?`. -/
def squareShape : List Char → Bool
  | f :: d :: rest =>
    lowerFile f && digit19 d &&
      (match rest with | [] => true | [c] => digit04 c | _ => false)
  | _ => false

/-- `Char.ofNat` of a codepoint below the surrogate range round-trips
through `toNat`. -/
lemma char_toNat_ofNat {n : ℕ} (h : n < 55296) : (Char.ofNat n).toNat = n := by
  have hv : n.isValidChar := Or.inl h
  rw [Char.ofNat, dif_pos hv]
  simp [Char.ofNatAux, Char.toNat, UInt32.toNat, BitVec.toNat_ofNatLt]

/-- `toUpper` subtracts 32 on basic-latin lowercase codepoints. -/
lemma toUpper_toNat_low {c : Char} (h1 : 97 ≤ c.toNat) (h2 : c.toNat ≤ 122) :
    c.toUpper.toNat = c.toNat - 32 := by
  simp only [Char.toUpper]
  rw [if_pos ⟨h1, h2⟩]
  exact char_toNat_ofNat (by omega)

/-- `toUpper` fixes codepoints outside the basic-latin lowercase range. -/
lemma toUpper_fixed {c : Char} (h : c.toNat < 97 ∨ 122 < c.toNat) :
    c.toUpper = c := by
  simp only [Char.toUpper]
  rw [if_neg (by omega)]

/-- `toLower` adds 32 on basic-latin uppercase codepoints. -/
lemma toLower_toNat_up {c : Char} (h1 : 65 ≤ c.toNat) (h2 : c.toNat ≤ 90) :
    c.toLower.toNat = c.toNat + 32 := by
  simp only [Char.toLower]
  rw [if_pos ⟨h1, h2⟩]
  exact char_toNat_ofNat (by omega)

/-- `toLower` fixes codepoints outside the basic-latin uppercase range. -/
lemma toLower_fixed {c : Char} (h : c.toNat < 65 ∨ 90 < c.toNat) :
    c.toLower = c := by
  simp only [Char.toLower]
  rw [if_neg (by omega)]

/-- Characters with different codepoints differ. -/
lemma ne_of_toNat_ne {c d : Char} (h : c.toNat ≠ d.toNat) : c ≠ d :=
  fun he => h (he ▸ rfl)

/-- No character matched by the regular-move tail is `@`. -/
lemma matchRegularTail2_no_amp {xs : List Char}
    (h : matchRegularTail2 xs = true) : '@' ∉ xs := by
  match xs with
  | [] => simp
  | [c] =>
    simp only [List.mem_singleton]
    rintro rfl
    revert h
    decide
  | [c1, c2] =>
    simp only [matchRegularTail2, Bool.and_eq_true] at h
    obtain ⟨h1, h2⟩ := h
    simp only [List.mem_cons, List.mem_singleton, not_or]
    refine ⟨?_, ?_, by simp⟩
    · rintro rfl; revert h1; decide
    · rintro rfl; revert h2; decide
  | _ :: _ :: _ :: _ => simp [matchRegularTail2] at h

/-- No character matched by the regular-move destination part is `@`. -/
lemma matchRegularSecond_no_amp {xs : List Char}
    (h : matchRegularSecond xs = true) : '@' ∉ xs := by
  match xs with
  | [] => simp [matchRegularSecond] at h
  | [_] => simp [matchRegularSecond] at h
  | f :: d :: rest =>
    simp only [matchRegularSecond, Bool.and_eq_true] at h
    obtain ⟨⟨hf, hd⟩, ht⟩ := h
    simp only [List.mem_cons, not_or]
    refine ⟨?_, ?_, fun hm => matchRegularTail2_no_amp ht hm⟩
    · rintro rfl; revert hf; decide
    · rintro rfl; revert hd; decide

/-- No character matched after the regular-move source square is `@`. -/
lemma matchRegularFirstTail_no_amp {xs : List Char}
    (h : matchRegularFirstTail xs = true) : '@' ∉ xs := by
  match xs with
  | [] => simp
  | c :: rest =>
    simp only [matchRegularFirstTail] at h
    split_ifs at h with hc
    · simp only [List.mem_cons, not_or]
      refine ⟨?_, fun hm => matchRegularSecond_no_amp h hm⟩
      rintro rfl; revert hc; decide
    · exact matchRegularSecond_no_amp h

/-- A string matched by the regular-move pattern contains no `@`. -/
lemma matchRegular_no_amp {xs : List Char}
    (h : matchRegular xs = true) : '@' ∉ xs := by
  match xs with
  | [] => simp
  | [_] => simp [matchRegular] at h
  | f :: d :: rest =>
    simp only [matchRegular, Bool.and_eq_true] at h
    obtain ⟨⟨hf, hd⟩, ht⟩ := h
    simp only [List.mem_cons, not_or]
    refine ⟨?_, ?_, fun hm => matchRegularFirstTail_no_amp ht hm⟩
    · rintro rfl; revert hf; decide
    · rintro rfl; revert hd; decide

/-- `split('@')` of an `@`-free string is the single whole part. -/
lemma splitOnAmp_no_amp {l : List Char} (h : '@' ∉ l) :
    splitOnAmp l = [l] := by
  induction l with
  | nil => rfl
  | cons c t ih =>
    simp only [List.mem_cons, not_or] at h
    simp only [splitOnAmp, ih h.2]
    rw [if_neg (Ne.symm h.1)]
    rfl

/-- `split('@')` of `x @ suffix` with `@`-free `x`-part and suffix. -/
lemma splitOnAmp_single {x : Char} {suf : List Char}
    (hx : x ≠ '@') (hs : '@' ∉ suf) :
    splitOnAmp (x :: '@' :: suf) = [[x], suf] := by
  simp only [splitOnAmp, splitOnAmp_no_amp hs]
  rw [if_neg hx]
  simp

/-- Bounds form of `digit19`. -/
lemma digit19_bounds {c : Char} (h : digit19 c = true) :
    49 ≤ c.toNat ∧ c.toNat ≤ 57 := by
  simpa [digit19, Bool.and_eq_true, decide_eq_true_eq] using h

/-- Bounds form of `digit04`. -/
lemma digit04_bounds {c : Char} (h : digit04 c = true) :
    48 ≤ c.toNat ∧ c.toNat ≤ 52 := by
  simpa [digit04, Bool.and_eq_true, decide_eq_true_eq] using h

/-- Bounds form of `lowerFile`. -/
lemma lowerFile_bounds {c : Char} (h : lowerFile c = true) :
    97 ≤ c.toNat ∧ c.toNat ≤ 110 := by
  simpa [lowerFile, Bool.and_eq_true, decide_eq_true_eq] using h

/-- Introduction form of `lowerFile`. -/
lemma lowerFile_of_bounds {c : Char} (h1 : 97 ≤ c.toNat) (h2 : c.toNat ≤ 110) :
    lowerFile c = true := by
  simp only [lowerFile, Bool.and_eq_true, decide_eq_true_eq]
  exact ⟨h1, h2⟩

/-- A decimal digit is fixed by both case maps and is not `@`. -/
lemma digit_case_fixed {d : Char} (h48 : 48 ≤ d.toNat) (h57 : d.toNat ≤ 57) :
    d.toUpper = d ∧ d.toLower = d ∧ d.toUpper ≠ '@' := by
  have hu : d.toUpper = d := toUpper_fixed (Or.inl (by omega))
  have hl : d.toLower = d := toLower_fixed (Or.inl (by omega))
  refine ⟨hu, hl, ?_⟩
  rw [hu]
  refine ne_of_toNat_ne ?_
  have ha : ('@').toNat = 64 := rfl
  omega

/-- A drop-pattern file letter uppercases to a non-`@` character whose
lowercase form is a lowercase file letter. -/
lemma dropFile_facts {f : Char} (hf : anyCaseFile f = true) :
    f.toUpper ≠ '@' ∧ lowerFile (f.toUpper.toLower) = true := by
  have ha : ('@').toNat = 64 := rfl
  have hf' : lowerFile f = true ∨ (65 ≤ f.toNat ∧ f.toNat ≤ 78) := by
    simpa [anyCaseFile, Bool.and_eq_true, decide_eq_true_eq,
      Bool.or_eq_true] using hf
  rcases hf' with hl | hu
  · obtain ⟨h1, h2⟩ := lowerFile_bounds hl
    have hup : f.toUpper.toNat = f.toNat - 32 := toUpper_toNat_low h1 (by omega)
    have hlo : f.toUpper.toLower.toNat = f.toUpper.toNat + 32 :=
      toLower_toNat_up (by omega) (by omega)
    refine ⟨ne_of_toNat_ne (by omega), lowerFile_of_bounds (by omega) (by omega)⟩
  · have h1 : 65 ≤ f.toNat ∧ f.toNat ≤ 78 := hu
    have hup : f.toUpper = f := toUpper_fixed (Or.inl (by omega))
    rw [hup]
    have hlo : f.toLower.toNat = f.toNat + 32 := toLower_toNat_up h1.1 (by omega)
    exact ⟨ne_of_toNat_ne (by omega), lowerFile_of_bounds (by omega) (by omega)⟩

/-- Inversion of `parseRankGroup`: one `[1-9]` digit optionally followed
by one `[0-4]` digit. -/
lemma parseRankGroup_shape {cs r rest : List Char}
    (h : parseRankGroup cs = some (r, rest)) :
    (∃ d, r = [d] ∧ digit19 d = true)
    ∨ (∃ d c, r = [d, c] ∧ digit19 d = true ∧ digit04 c = true) := by
  match cs with
  | [] => simp [parseRankGroup] at h
  | [d] =>
    simp only [parseRankGroup] at h
    split_ifs at h with h1
    simp only [Option.some.injEq, Prod.mk.injEq] at h
    exact Or.inl ⟨d, h.1.symm, h1⟩
  | d :: c :: rest2 =>
    simp only [parseRankGroup] at h
    split_ifs at h with h1 h2
    · simp only [Option.some.injEq, Prod.mk.injEq] at h
      exact Or.inr ⟨d, c, h.1.symm, h1, h2⟩
    · simp only [Option.some.injEq, Prod.mk.injEq] at h
      exact Or.inl ⟨d, h.1.symm, h1⟩

/-- A file letter and a rank group form a well-shaped square token. -/
lemma squareShape_of_groups {f1 : Char} {r1 : List Char}
    (hf : lowerFile f1 = true)
    (hr : (∃ d, r1 = [d] ∧ digit19 d = true)
        ∨ (∃ d c, r1 = [d, c] ∧ digit19 d = true ∧ digit04 c = true)) :
    squareShape (f1 :: r1) = true := by
  rcases hr with ⟨d, rfl, hd⟩ | ⟨d, c, rfl, hd, hc⟩
  · simp [squareShape, hf, hd]
  · simp [squareShape, hf, hd, hc]

/-- Successful group extraction yields well-shaped lowercase squares and
a promotion letter from the promotion class. -/
lemma parseRegularGroups_shape {cs : List Char} {f t : String}
    {pr : Option String}
    (h : parseRegularGroups cs = some (f, t, pr)) :
    squareShape f.data = true ∧ squareShape t.data = true
    ∧ (pr = none
        ∨ ∃ c, pr = some (String.mk [c]) ∧ promoChars.contains c = true) := by
  match cs with
  | [] => simp [parseRegularGroups] at h
  | f1 :: rest1 =>
    simp only [parseRegularGroups] at h
    split_ifs at h with hf1
    rcases h1 : parseRankGroup rest1 with _ | ⟨r1, rest2⟩
    · rw [h1] at h; simp at h
    · rw [h1] at h
      dsimp only at h
      match rest2, h with
      | [], h => simp at h
      | f2 :: rest3, h =>
        dsimp only at h
        split_ifs at h with hf2
        rcases h2 : parseRankGroup rest3 with _ | ⟨r2, rest4⟩
        · rw [h2] at h; simp at h
        · rw [h2] at h
          dsimp only at h
          match rest4, h with
          | [], h =>
            dsimp only at h
            simp only [Option.some.injEq, Prod.mk.injEq] at h
            obtain ⟨hf', ht', hp'⟩ := h
            subst hf' ht' hp'
            exact ⟨squareShape_of_groups hf1 (parseRankGroup_shape h1),
                   squareShape_of_groups hf2 (parseRankGroup_shape h2),
                   Or.inl rfl⟩
          | [pc], h =>
            dsimp only at h
            split_ifs at h with hpc
            simp only [Option.some.injEq, Prod.mk.injEq] at h
            obtain ⟨hf', ht', hp'⟩ := h
            subst hf' ht' hp'
            exact ⟨squareShape_of_groups hf1 (parseRankGroup_shape h1),
                   squareShape_of_groups hf2 (parseRankGroup_shape h2),
                   Or.inr ⟨pc, rfl, hpc⟩⟩
          | _ :: _ :: _, h => simp at h

/-- Inversion of the drop pattern. -/
lemma matchDropPattern_inv {m : List Char} (h : matchDropPattern m = true) :
    ∃ p f d rest, m = p :: '@' :: f :: d :: rest
      ∧ dropPieceChars.contains p = true ∧ anyCaseFile f = true
      ∧ digit19 d = true
      ∧ (rest = [] ∨ ∃ c, rest = [c] ∧ digit04 c = true) := by
  match m with
  | [] => simp [matchDropPattern] at h
  | [_] => simp [matchDropPattern] at h
  | [_, _] => simp [matchDropPattern] at h
  | [_, _, _] => simp [matchDropPattern] at h
  | p :: a :: f :: d :: rest =>
    simp only [matchDropPattern, Bool.and_eq_true, beq_iff_eq] at h
    obtain ⟨⟨⟨⟨hp, ha⟩, hf⟩, hd⟩, ht⟩ := h
    subst ha
    refine ⟨p, f, d, rest, rfl, hp, hf, hd, ?_⟩
    match rest, ht with
    | [], _ => exact Or.inl rfl
    | [c], ht => exact Or.inr ⟨c, rfl, ht⟩
    | _ :: _ :: _, ht => simp at ht

/-- C10.  Move-text parser totality: `parse_uci_move` is a total
function into `Option ParsedMove` — the source never raises — and every
successful result is either a normal-move record with lowercase from/to
squares of shape `[a-n][1-9][0-4]?` and an optional lowercase promotion
letter from `[qrbnkuwfac]`, or a drop record with a single uppercase
piece letter from `QRNBPUWFAC` and a lowercase destination square; any
string outside the move grammar — including the empty string, bare
commands such as "go", and rank tokens outside the pattern of one digit
1-9 optionally followed by a digit 0-4 as in "e15e4" or "e0e4" — yields
`none`. -/
theorem parse_uci_move_total :
    (∀ (s f t : String) (pr : Option String),
      parse_uci_move s = some (.normal f t pr) →
      squareShape f.data = true ∧ squareShape t.data = true
        ∧ (pr = none
            ∨ ∃ c, pr = some (String.mk [c]) ∧ promoChars.contains c = true))
    ∧ (∀ (s pc t : String),
      parse_uci_move s = some (.drop pc t) →
      (∃ c, pc = String.mk [c]
         ∧ c ∈ (['Q', 'R', 'N', 'B', 'P', 'U', 'W', 'F', 'A', 'C'] : List Char))
        ∧ squareShape t.data = true)
    ∧ parse_uci_move "" = none
    ∧ parse_uci_move "go" = none
    ∧ parse_uci_move "e15e4" = none
    ∧ parse_uci_move "e0e4" = none := by
  have hnormal : ∀ (m : List Char) (f t : String) (pr : Option String),
      parse_uci_move_stripped m = some (.normal f t pr) →
      squareShape f.data = true ∧ squareShape t.data = true
        ∧ (pr = none
            ∨ ∃ c, pr = some (String.mk [c]) ∧ promoChars.contains c = true) := by
    intro m f t pr h
    rw [parse_uci_move_stripped] at h
    split_ifs at h with hval hamp
    · exfalso
      rcases hsp : splitOnAmp (m.map Char.toUpper) with _ | ⟨p, _ | ⟨sq, _ | _⟩⟩ <;>
        rw [hsp] at h <;> simp at h
    · rcases hpg : parseRegularGroups (m.map Char.toLower) with _ | ⟨f', t', pr'⟩
      · rw [hpg] at h; simp at h
      · rw [hpg] at h
        dsimp only at h
        simp only [Option.some.injEq, ParsedMove.normal.injEq] at h
        obtain ⟨rfl, rfl, rfl⟩ := h
        exact parseRegularGroups_shape hpg
  have hdropL : ∀ (m : List Char) (pc t : String),
      parse_uci_move_stripped m = some (.drop pc t) →
      (∃ c, pc = String.mk [c]
         ∧ c ∈ (['Q', 'R', 'N', 'B', 'P', 'U', 'W', 'F', 'A', 'C'] : List Char))
        ∧ squareShape t.data = true := by
    intro m pc t h
    rw [parse_uci_move_stripped] at h
    split_ifs at h with hval hamp
    · have hv : validate_uci_move m = true := hval
      have hvor : matchRegular (m.map Char.toLower) = true
          ∨ matchDropPattern m = true := by
        simpa [validate_uci_move, Bool.or_eq_true] using hv
      have hdrop : matchDropPattern m = true := by
        rcases hvor with hreg | hd
        · exfalso
          have hmem : '@' ∈ m.map Char.toLower := by
            have h' := List.mem_map_of_mem Char.toLower hamp
            simpa using h'
          exact matchRegular_no_amp hreg hmem
        · exact hd
      obtain ⟨p, fc, d, rest, rfl, hp, hfc, hd19, hrest⟩ :=
        matchDropPattern_inv hdrop
      have hp20 : ∀ x ∈ dropPieceChars, x.toUpper ∈
          (['Q', 'R', 'N', 'B', 'P', 'U', 'W', 'F', 'A', 'C'] : List Char)
            ∧ x.toUpper ≠ '@' := by decide
      have hpmem : p ∈ dropPieceChars := by
        simpa [List.contains] using hp
      obtain ⟨hpu, hpne⟩ := hp20 p hpmem
      obtain ⟨hfne, hflow⟩ := dropFile_facts hfc
      obtain ⟨hd1, hd2⟩ := digit19_bounds hd19
      obtain ⟨hdu, hdl, hdne⟩ := digit_case_fixed (by omega) hd2
      have hsuf : '@' ∉ (fc.toUpper :: d.toUpper :: rest.map Char.toUpper) := by
        simp only [List.mem_cons, not_or]
        refine ⟨Ne.symm hfne, Ne.symm hdne, ?_⟩
        rcases hrest with rfl | ⟨c, rfl, hc04⟩
        · simp
        · obtain ⟨hc1, hc2⟩ := digit04_bounds hc04
          obtain ⟨-, -, hcne⟩ := digit_case_fixed (d := c) (by omega) (by omega)
          simpa using Ne.symm hcne
      have hupA : Char.toUpper '@' = '@' := rfl
      have hmap : (p :: '@' :: fc :: d :: rest).map Char.toUpper
          = p.toUpper :: '@' :: fc.toUpper :: d.toUpper :: rest.map Char.toUpper := by
        simp [hupA]
      rw [hmap, splitOnAmp_single hpne hsuf] at h
      dsimp only at h
      simp only [Option.some.injEq, ParsedMove.drop.injEq] at h
      obtain ⟨hpc, ht⟩ := h
      subst hpc ht
      refine ⟨⟨p.toUpper, rfl, hpu⟩, ?_⟩
      rcases hrest with rfl | ⟨c, rfl, hc04⟩
      · simp only [List.map]
        rw [hdu, hdl]
        simp [squareShape, hflow, hd19]
      · obtain ⟨hc1, hc2⟩ := digit04_bounds hc04
        obtain ⟨hcu, hcl, -⟩ := digit_case_fixed (d := c) (by omega) (by omega)
        simp only [List.map]
        rw [hdu, hdl, hcu, hcl]
        simp [squareShape, hflow, hd19, hc04]
    · rcases hpg : parseRegularGroups (m.map Char.toLower) with _ | ⟨f', t', pr'⟩ <;>
        rw [hpg] at h <;> simp at h
  refine ⟨?_, ?_, rfl, rfl, rfl, rfl⟩
  · intro s f t pr h
    exact hnormal (pyStrip s.data) f t pr h
  · intro s pc t h
    exact hdropL (pyStrip s.data) pc t h

/-- Witness for C10 at concrete inputs: "e2e4" parses to the normal
record (e2, e4, no promotion) and "N@g3" to the knight-drop record,
both of the stated shapes. -/
theorem parse_uci_move_total_witness :
    (squareShape ("e2" : String).data = true
      ∧ squareShape ("e4" : String).data = true
      ∧ ((none : Option String) = none
          ∨ ∃ c, (none : Option String) = some (String.mk [c])
              ∧ promoChars.contains c = true))
    ∧ ((∃ c, ("N" : String) = String.mk [c]
         ∧ c ∈ (['Q', 'R', 'N', 'B', 'P', 'U', 'W', 'F', 'A', 'C'] : List Char))
        ∧ squareShape ("g3" : String).data = true) :=
  ⟨parse_uci_move_total.1 "e2e4" "e2" "e4" none rfl,
   parse_uci_move_total.2.1 "N@g3" "N" "g3" rfl⟩

end TiltedClient
